import Mathlib

/-!
Verification development for the Widget Engine of the multi-root React
mounting repository.  The definitions below are a shallow embedding of the
TypeScript widget engine (`widgetEngine.tsx`, the file with `parseProps`,
`mountWidget`, `unmountWidget`, `cleanupAllWidgets`), of the setup-checklist
variant of `mountWidget` with its `ErrorBoundary`, and of the setup-checklist
`MutationObserver` callback.  JavaScript's `JSON.parse` is modelled by an
executable JSON parser over an explicit JSON value type.
-/

/-- JSON values as produced by `JSON.parse`.  Numbers are kept as a decimal
mantissa/exponent pair, so `42` is `num 42 0` and `0.08` is `num 8 (-2)`. -/
inductive Json where
  | null : Json
  | bool : Bool → Json
  | num : Int → Int → Json
  | str : String → Json
  | arr : List Json → Json
  | obj : List (String × Json) → Json

/-- Whitespace characters accepted between JSON tokens. -/
def isJsonWs (c : Char) : Bool :=
  c = ' ' || c = '\n' || c = '\t' || c = '\r'

/-- Drop leading JSON whitespace. -/
def skipWs : List Char → List Char
  | [] => []
  | c :: cs => if isJsonWs c then skipWs cs else c :: cs

/-- Read a maximal run of decimal digits, returning value, digit count and
the remaining input. -/
def readDigits : List Char → Nat → Nat → Nat × Nat × List Char
  | [], acc, n => (acc, n, [])
  | c :: cs, acc, n =>
    if c.isDigit then readDigits cs (acc * 10 + (c.toNat - 48)) (n + 1)
    else (acc, n, c :: cs)

/-- Read at least one decimal digit. -/
def parseDigits (cs : List Char) : Option (Nat × Nat × List Char) :=
  match readDigits cs 0 0 with
  | (v, n, rest) => if n = 0 then none else some (v, n, rest)

/-- The integer part of a JSON number: either a single `0` or a nonzero
digit followed by more digits (JSON forbids leading zeros). -/
def parseIntPart (cs : List Char) : Option (Nat × List Char) :=
  match cs with
  | '0' :: rest => some (0, rest)
  | _ =>
    match parseDigits cs with
    | some (v, _, rest) => some (v, rest)
    | none => none

/-- Parse a JSON number literal. -/
def parseNumber (cs : List Char) : Option (Json × List Char) := do
  let (neg, cs1) :=
    match cs with
    | '-' :: t => (true, t)
    | _ => (false, cs)
  let (ip, cs2) ← parseIntPart cs1
  let (m, e, cs3) ←
    match cs2 with
    | '.' :: t =>
      match parseDigits t with
      | some (fp, fn, r) => some ((ip * 10 ^ fn + fp : Nat), -(fn : Int), r)
      | none => none
    | _ => some (ip, (0 : Int), cs2)
  let (e2, cs4) ←
    match cs3 with
    | 'e' :: t =>
      match (match t with
             | '+' :: u => ((1 : Int), u)
             | '-' :: u => ((-1 : Int), u)
             | _ => ((1 : Int), t)) with
      | (sgn, t1) =>
        match parseDigits t1 with
        | some (ev, _, r) => some (sgn * (ev : Int), r)
        | none => none
    | 'E' :: t =>
      match (match t with
             | '+' :: u => ((1 : Int), u)
             | '-' :: u => ((-1 : Int), u)
             | _ => ((1 : Int), t)) with
      | (sgn, t1) =>
        match parseDigits t1 with
        | some (ev, _, r) => some (sgn * (ev : Int), r)
        | none => none
    | _ => some ((0 : Int), cs3)
  let mz : Int := if neg then -(m : Int) else (m : Int)
  some (Json.num mz (e + e2), cs4)

/-- Decode one hexadecimal digit. -/
def hexVal (c : Char) : Option Nat :=
  if '0' ≤ c ∧ c ≤ '9' then some (c.toNat - 48)
  else if 'a' ≤ c ∧ c ≤ 'f' then some (c.toNat - 97 + 10)
  else if 'A' ≤ c ∧ c ≤ 'F' then some (c.toNat - 65 + 10)
  else none

/-- Parse the body of a JSON string literal (the opening quote has already
been consumed), handling escape sequences. -/
def parseStringBody : List Char → List Char → Option (String × List Char)
  | [], _ => none
  | c :: rest, acc =>
    if c = '"' then some (String.mk acc.reverse, rest)
    else if c = '\\' then
      match rest with
      | [] => none
      | e :: rest2 =>
        if e = '"' then parseStringBody rest2 ('"' :: acc)
        else if e = '\\' then parseStringBody rest2 ('\\' :: acc)
        else if e = '/' then parseStringBody rest2 ('/' :: acc)
        else if e = 'n' then parseStringBody rest2 ('\n' :: acc)
        else if e = 't' then parseStringBody rest2 ('\t' :: acc)
        else if e = 'r' then parseStringBody rest2 ('\r' :: acc)
        else if e = 'b' then parseStringBody rest2 (Char.ofNat 8 :: acc)
        else if e = 'f' then parseStringBody rest2 (Char.ofNat 12 :: acc)
        else if e = 'u' then
          match rest2 with
          | h1 :: h2 :: h3 :: h4 :: rest3 =>
            match hexVal h1, hexVal h2, hexVal h3, hexVal h4 with
            | some a, some b, some c3, some d =>
              parseStringBody rest3
                (Char.ofNat (((a * 16 + b) * 16 + c3) * 16 + d) :: acc)
            | _, _, _, _ => none
          | _ => none
        else none
    else parseStringBody rest (c :: acc)

mutual

/-- Parse one JSON value (fuel-bounded recursive descent). -/
def parseValue : Nat → List Char → Option (Json × List Char)
  | 0, _ => none
  | fuel + 1, cs =>
    match skipWs cs with
    | 'n' :: 'u' :: 'l' :: 'l' :: r => some (Json.null, r)
    | 't' :: 'r' :: 'u' :: 'e' :: r => some (Json.bool true, r)
    | 'f' :: 'a' :: 'l' :: 's' :: 'e' :: r => some (Json.bool false, r)
    | '"' :: r =>
      match parseStringBody r [] with
      | some (s, r1) => some (Json.str s, r1)
      | none => none
    | '[' :: r =>
      match skipWs r with
      | ']' :: r1 => some (Json.arr [], r1)
      | r1 => parseElems fuel r1 []
    | '{' :: r =>
      match skipWs r with
      | '}' :: r1 => some (Json.obj [], r1)
      | r1 => parseFields fuel r1 []
    | cs1 => parseNumber cs1

/-- Parse the remaining elements of a non-empty JSON array. -/
def parseElems : Nat → List Char → List Json → Option (Json × List Char)
  | 0, _, _ => none
  | fuel + 1, cs, acc =>
    match parseValue fuel cs with
    | none => none
    | some (v, r) =>
      match skipWs r with
      | ',' :: r1 => parseElems fuel r1 (v :: acc)
      | ']' :: r1 => some (Json.arr (v :: acc).reverse, r1)
      | _ => none

/-- Parse the remaining members of a non-empty JSON object. -/
def parseFields : Nat → List Char → List (String × Json) →
    Option (Json × List Char)
  | 0, _, _ => none
  | fuel + 1, cs, acc =>
    match skipWs cs with
    | '"' :: r =>
      match parseStringBody r [] with
      | none => none
      | some (k, r1) =>
        match skipWs r1 with
        | ':' :: r2 =>
          match parseValue fuel r2 with
          | none => none
          | some (v, r3) =>
            match skipWs r3 with
            | ',' :: r4 => parseFields fuel r4 ((k, v) :: acc)
            | '}' :: r4 => some (Json.obj ((k, v) :: acc).reverse, r4)
            | _ => none
        | _ => none
    | _ => none

end

/-- Model of `JSON.parse`: parse a complete JSON document, requiring the
whole input (up to trailing whitespace) to be consumed; `none` models the
thrown `SyntaxError`. -/
def jsonParse (s : String) : Option Json :=
  match parseValue (2 * s.length + 2) s.toList with
  | some (v, rest) => if skipWs rest = [] then some v else none
  | none => none


/-!
## Data model of the widget engine

A `Container` models a DOM element matched by the engine's mount-point
selector, with its `data-widget-component` and `data-props` attributes
(`none` models an absent attribute, `some ""` an attribute that is present
but empty — both are falsy in the JavaScript source).  The `id` field models
DOM-element reference identity, which is what the tracking `Map` is keyed
by.
-/

structure Container where
  id : Nat
  widgetComponent : Option String
  props : Option String
deriving DecidableEq

/-- A registry value: a (lazily loadable) component.  `cid` models the
identity of the component object; `rendersOk` says whether rendering the
component succeeds or throws; `cleanupThrows` says whether the effect
cleanup run by `root.unmount()` throws. -/
structure Component where
  cid : Nat
  rendersOk : Bool
  cleanupThrows : Bool
deriving DecidableEq

/-- The registry: an association of component names to components, modelling
the `registry` record object. -/
abbrev Registry := List (String × Component)

/-- `registry[name]` with the `if (!Component)` falsiness check: `none`
models `undefined`. -/
def findComponent : Registry → String → Option Component
  | [], _ => none
  | (k, v) :: t, name => if k = name then some v else findComponent t name

/-- The element tree handed to `root.render(...)`. -/
inductive RElement where
  | strictMode : RElement → RElement
  | suspense : RElement → RElement → RElement
  | errorBoundary : String → RElement → RElement
  | componentEl : Component → Json → RElement
  | divEl : String → String → RElement

/-- A live render root: `rid` is the root's identity, `tree` the element
tree it renders, `throwsOnUnmount` whether `root.unmount()` throws (set
from the mounted component's cleanup behaviour). -/
structure Root where
  rid : Nat
  tree : RElement
  throwsOnUnmount : Bool

/-- The `RootEntry` record of the TS engine: `{ root, componentName }`. -/
structure RootEntry where
  root : Root
  componentName : String

/-- Console output and semantic events of the engine.  The first four model
the `console.warn`/`console.error` diagnostics of the source;
`mounted name`/`unmounted name` model the success logs; `releaseAttempt rid`
marks an invocation of `root.unmount()` (the release of the instance's
resources), emitted whether or not that release throws. -/
inductive Diagnostic where
  | alreadyMounted : Nat → Diagnostic
  | noComponentName : Nat → Diagnostic
  | componentNotRegistered : String → Diagnostic
  | invalidPropsJson : Diagnostic
  | mounted : String → Diagnostic
  | unmounted : String → Diagnostic
  | releaseAttempt : Nat → Diagnostic
deriving DecidableEq

/-- The engine's mutable state: the `activeRoots` map (an association list
in insertion order, keyed by container identity) plus a counter supplying
fresh root identities. -/
structure EngineState where
  activeRoots : List (Container × RootEntry)
  nextRootId : Nat

/-- The state at module load: an empty tracking map. -/
def EngineState.init : EngineState := ⟨[], 0⟩

/-- `activeRoots.get(container)` / `activeRoots.has(container)`. -/
def findEntry : List (Container × RootEntry) → Container → Option RootEntry
  | [], _ => none
  | (k, v) :: t, c => if k = c then some v else findEntry t c

/-- `activeRoots.delete(container)`. -/
def removeEntry : List (Container × RootEntry) → Container →
    List (Container × RootEntry)
  | [], _ => []
  | (k, v) :: t, c => if k = c then removeEntry t c else (k, v) :: removeEntry t c

/-!
## The TS engine (`parseProps`, `mountWidget`, `unmountWidget`,
`cleanupAllWidgets`, the scan)
-/

/-- `parseProps` of the TS engine: falsy input (absent attribute or empty
string) yields `{}` silently; invalid JSON logs an error diagnostic and
falls back to `{}` (the function never throws and never aborts the mount). -/
def parseProps (propsJson : Option String) : Json × List Diagnostic :=
  match propsJson with
  | none => (Json.obj [], [])
  | some s =>
    if s = "" then (Json.obj [], [])
    else
      match jsonParse s with
      | some j => (j, [])
      | none => (Json.obj [], [Diagnostic.invalidPropsJson])

/-- The element tree built by the TS engine's `root.render` call:
`StrictMode` around `Suspense` (skeleton-loader fallback) around the
resolved component — there is no error boundary in this engine. -/
def renderTree (comp : Component) (props : Json) : RElement :=
  RElement.strictMode
    (RElement.suspense (RElement.divEl "skeleton-loader" "")
      (RElement.componentEl comp props))

/-- `mountWidget` of the TS engine, returning the new state and the
diagnostics emitted, in order. -/
def mountWidget (reg : Registry) (s : EngineState) (c : Container) :
    EngineState × List Diagnostic :=
  if (findEntry s.activeRoots c).isSome then
    (s, [Diagnostic.alreadyMounted c.id])
  else
    match c.widgetComponent with
    | none => (s, [Diagnostic.noComponentName c.id])
    | some name =>
      if name = "" then (s, [Diagnostic.noComponentName c.id])
      else
        match findComponent reg name with
        | none => (s, [Diagnostic.componentNotRegistered name])
        | some comp =>
          (⟨s.activeRoots ++
              [(c, ⟨⟨s.nextRootId, renderTree comp (parseProps c.props).1,
                     comp.cleanupThrows⟩, name⟩)],
            s.nextRootId + 1⟩,
           (parseProps c.props).2 ++ [Diagnostic.mounted name])

/-- `unmountWidget` of the TS engine.  The third component reports whether
`entry.root.unmount()` threw; in that case the `delete` that follows it in
the source is never reached, so the state is unchanged. -/
def unmountWidget (s : EngineState) (c : Container) :
    EngineState × List Diagnostic × Bool :=
  match findEntry s.activeRoots c with
  | none => (s, [], false)
  | some entry =>
    if entry.root.throwsOnUnmount then
      (s, [Diagnostic.releaseAttempt entry.root.rid], true)
    else
      (⟨removeEntry s.activeRoots c, s.nextRootId⟩,
       [Diagnostic.releaseAttempt entry.root.rid,
        Diagnostic.unmounted entry.componentName], false)

/-- The scan loop: `containers.forEach(mountWidget)` over the containers in
document order. -/
def scanLoop (reg : Registry) (s : EngineState) :
    List Container → EngineState × List Diagnostic
  | [] => (s, [])
  | c :: rest =>
    ((scanLoop reg (mountWidget reg s c).1 rest).1,
     (mountWidget reg s c).2 ++ (scanLoop reg (mountWidget reg s c).1 rest).2)

/-- The scan entry point of the TS engine (named `initializeWidgets` in the
source): `document.querySelectorAll` is modelled by the list of containers
matched, in document order. -/
def initWidgets (reg : Registry) (doc : List Container) (s : EngineState) :
    EngineState × List Diagnostic :=
  scanLoop reg s doc

/-- The iteration of `cleanupAllWidgets`: `activeRoots.forEach` visits the
keys in insertion order and calls `unmountWidget` on each; a throwing
unmount aborts the iteration and propagates. -/
def cleanupLoop (s : EngineState) :
    List Container → EngineState × List Diagnostic × Bool
  | [] => (s, [], false)
  | c :: rest =>
    if (unmountWidget s c).2.2 then
      ((unmountWidget s c).1, (unmountWidget s c).2.1, true)
    else
      ((cleanupLoop (unmountWidget s c).1 rest).1,
       (unmountWidget s c).2.1 ++ (cleanupLoop (unmountWidget s c).1 rest).2.1,
       (cleanupLoop (unmountWidget s c).1 rest).2.2)

/-- `cleanupAllWidgets` of the TS engine. -/
def cleanupAllWidgets (s : EngineState) : EngineState × List Diagnostic × Bool :=
  cleanupLoop s (s.activeRoots.map Prod.fst)

/-- The demo registry (`registry.js` / the TS registry module): two lazy
components that render successfully. -/
def productCardComp : Component := ⟨1, true, false⟩

/-- The demo `Calculator` component. -/
def calculatorComp : Component := ⟨2, true, false⟩

/-- The demo registry mapping. -/
def demoRegistry : Registry :=
  [("ProductCard", productCardComp), ("Calculator", calculatorComp)]

/-!
## The setup-checklist engine variant (`main.jsx` of the checklist) and its
`ErrorBoundary`
-/

/-- Props parsing of the checklist engine:
`JSON.parse(container.dataset.props || '\x7b\x7d')`, where a parse failure
makes the surrounding `catch` return from `mountWidget` (`none` models that
skip). -/
def checklistParseProps (propsJson : Option String) : Option Json :=
  match propsJson with
  | none => some (Json.obj [])
  | some s => if s = "" then some (Json.obj []) else jsonParse s

/-- The element tree rendered by the checklist engine: `StrictMode` around
the `ErrorBoundary` (carrying the widget name) around `Suspense` around the
component. -/
def checklistRenderTree (name : String) (comp : Component) (props : Json) :
    RElement :=
  RElement.strictMode
    (RElement.errorBoundary name
      (RElement.suspense (RElement.divEl "" "Loading...")
        (RElement.componentEl comp props)))

/-- `mountWidget` of the checklist engine (its silent skips emit no
diagnostic where the source has no console call).  `editMode` models
`getWCMMode() === 'edit'`, in which a static placeholder is written and no
root is created. -/
def checklistMountWidget (reg : Registry) (editMode : Bool) (s : EngineState)
    (c : Container) : EngineState × List Diagnostic :=
  if (findEntry s.activeRoots c).isSome then (s, [])
  else
    match c.widgetComponent with
    | none => (s, [])
    | some name =>
      if name = "" then (s, [])
      else
        match findComponent reg name with
        | none => (s, [Diagnostic.componentNotRegistered name])
        | some comp =>
          match checklistParseProps c.props with
          | none => (s, [Diagnostic.invalidPropsJson])
          | some props =>
            if editMode then (s, [])
            else
              (⟨s.activeRoots ++
                  [(c, ⟨⟨s.nextRootId, checklistRenderTree name comp props,
                         comp.cleanupThrows⟩, name⟩)],
                s.nextRootId + 1⟩, [])

/-- Whether an element tree contains an `ErrorBoundary` anywhere. -/
def containsErrorBoundary : RElement → Bool
  | RElement.strictMode ch => containsErrorBoundary ch
  | RElement.suspense fb ch => containsErrorBoundary fb || containsErrorBoundary ch
  | RElement.errorBoundary _ _ => true
  | RElement.componentEl _ _ => false
  | RElement.divEl _ _ => false

/-- The fallback element the checklist `ErrorBoundary` renders once
`hasError` is set: the "Widget Error" box naming the failed widget. -/
def errorFallback (name : String) : RElement :=
  RElement.divEl "widget-error-box" name

/-- The outcome of committing a render of one root's element tree. -/
inductive RenderResult where
  | ok : RElement → RenderResult
  | errored : RenderResult

/-- React render semantics for one root, as relevant to the boundary
contract documented by the `ErrorBoundary` class: a component whose render
throws makes the nearest enclosing error boundary flip `hasError` and
render its fallback; with no enclosing boundary the error escapes the root
(`errored` — no fallback is shown).  `StrictMode` and `Suspense` do not
intercept render errors. -/
def renderEval : RElement → RenderResult
  | RElement.strictMode ch =>
    match renderEval ch with
    | RenderResult.ok e => RenderResult.ok (RElement.strictMode e)
    | RenderResult.errored => RenderResult.errored
  | RElement.suspense fb ch =>
    match renderEval ch with
    | RenderResult.ok e => RenderResult.ok (RElement.suspense fb e)
    | RenderResult.errored => RenderResult.errored
  | RElement.errorBoundary name ch =>
    match renderEval ch with
    | RenderResult.ok e => RenderResult.ok (RElement.errorBoundary name e)
    | RenderResult.errored => RenderResult.ok (errorFallback name)
  | RElement.componentEl comp props =>
    if comp.rendersOk then RenderResult.ok (RElement.componentEl comp props)
    else RenderResult.errored
  | RElement.divEl a b => RenderResult.ok (RElement.divEl a b)

/-!
## The host change observer (checklist `MutationObserver` callback)
-/

/-- A DOM node: identity, `nodeType` (1 = element) and child subtrees. -/
inductive DomNode where
  | mk : Nat → Nat → List DomNode → DomNode

/-- The node's identity. -/
def DomNode.id : DomNode → Nat
  | DomNode.mk i _ _ => i

/-- The node's `nodeType`. -/
def DomNode.nodeType : DomNode → Nat
  | DomNode.mk _ t _ => t

mutual

/-- Whether the subtree rooted at a node contains the node with the given
identity (the node itself included). -/
def subtreeContains : DomNode → Nat → Bool
  | DomNode.mk j _ cs, i => (j == i) || subtreeContainsAny cs i

/-- Whether any of the subtrees contains the node with the given identity. -/
def subtreeContainsAny : List DomNode → Nat → Bool
  | [], _ => false
  | c :: cs, i => subtreeContains c i || subtreeContainsAny cs i

end

/-- One `MutationRecord`, reduced to its `removedNodes` list. -/
structure MutationRecord where
  removedNodes : List DomNode

/-- The observer's tracking map (the checklist engine's `activeRoots` maps
containers directly to roots), keyed by node identity. -/
abbrev ObserverRoots := List (Nat × Root)

/-- `activeRoots.get(node)` for the observer. -/
def findRootById : ObserverRoots → Nat → Option Root
  | [], _ => none
  | (k, v) :: t, i => if k = i then some v else findRootById t i

/-- `activeRoots.delete(node)` for the observer. -/
def removeById : ObserverRoots → Nat → ObserverRoots
  | [], _ => []
  | (k, v) :: t, i => if k = i then removeById t i else (k, v) :: removeById t i

/-- The inner `mutation.removedNodes.forEach` of the observer callback: for
each removed node, if it is an element and is itself a tracked container,
unmount its root and delete its entry; nothing is done for nodes merely
contained in a removed subtree.  A throwing `unmount()` aborts the
iteration (third component). -/
def processNodes (roots : ObserverRoots) :
    List DomNode → ObserverRoots × List Diagnostic × Bool
  | [] => (roots, [], false)
  | n :: ns =>
    if n.nodeType = 1 then
      match findRootById roots n.id with
      | some r =>
        if r.throwsOnUnmount then
          (roots, [Diagnostic.releaseAttempt r.rid], true)
        else
          ((processNodes (removeById roots n.id) ns).1,
           Diagnostic.releaseAttempt r.rid ::
             (processNodes (removeById roots n.id) ns).2.1,
           (processNodes (removeById roots n.id) ns).2.2)
      | none => processNodes roots ns
    else processNodes roots ns

/-- The outer `mutations.forEach` of the observer callback. -/
def processRecords (roots : ObserverRoots) :
    List MutationRecord → ObserverRoots × List Diagnostic × Bool
  | [] => (roots, [], false)
  | m :: ms =>
    if (processNodes roots m.removedNodes).2.2 then
      ((processNodes roots m.removedNodes).1,
       (processNodes roots m.removedNodes).2.1, true)
    else
      ((processRecords (processNodes roots m.removedNodes).1 ms).1,
       (processNodes roots m.removedNodes).2.1 ++
         (processRecords (processNodes roots m.removedNodes).1 ms).2.1,
       (processRecords (processNodes roots m.removedNodes).1 ms).2.2)

/-- The observer callback on one mutation batch. -/
def observerCallback (roots : ObserverRoots) (ms : List MutationRecord) :
    ObserverRoots × List Diagnostic × Bool :=
  processRecords roots ms

/-- The identities of the element nodes of one removed-nodes list (the
nodes themselves, not their descendants). -/
def elemIds (ns : List DomNode) : List Nat :=
  (ns.filter fun n => n.nodeType = 1).map DomNode.id

/-- The identities of the nodes that appear directly (as removed nodes
themselves, not as descendants) in some record of the batch and have
element node type. -/
def topRemovedIds (ms : List MutationRecord) : List Nat :=
  (ms.map fun m => elemIds m.removedNodes).flatten

/-!
## Concrete fixtures (demo registry scenarios)
-/

/-- A container for the registered `ProductCard` with no props attribute. -/
def cGood : Container := ⟨0, some "ProductCard", none⟩

/-- The entry created by mounting `cGood` from the initial state. -/
def goodEntry : RootEntry :=
  ⟨⟨0, renderTree productCardComp (Json.obj []), false⟩, "ProductCard"⟩

/-- The state after scanning a document containing only `cGood`. -/
def sOne : EngineState := ⟨[(cGood, goodEntry)], 1⟩

/-- A container naming a component absent from the demo registry. -/
def cMissing : Container := ⟨7, some "Missing", none⟩

/-- An untracked container distinct from `cGood`. -/
def cOther : Container := ⟨5, some "Calculator", none⟩

/-- A container whose `data-props` attribute is not valid JSON. -/
def cBadJson : Container := ⟨4, some "ProductCard", some "\x7bnot valid json"⟩

/-- A container whose `data-props` is the JSON scalar `42`. -/
def cScalar : Container := ⟨11, some "Calculator", some "42"⟩

/-!
## Claim C2: `cleanupAllWidgets`
-/

/-- A root whose mounted instance's cleanup throws on `unmount()`. -/
def throwRoot : Root := ⟨100, renderTree productCardComp (Json.obj []), true⟩

/-- A root whose teardown succeeds. -/
def okRoot : Root := ⟨101, renderTree calculatorComp (Json.obj []), false⟩

/-- A two-entry state whose first entry's teardown throws. -/
def sThrow : EngineState :=
  ⟨[(cGood, ⟨throwRoot, "ProductCard"⟩), (cOther, ⟨okRoot, "Calculator"⟩)], 102⟩

/-- A two-entry state in which no teardown throws. -/
def sTwo : EngineState :=
  ⟨[(cGood, goodEntry), (cOther, ⟨okRoot, "Calculator"⟩)], 102⟩

/-!
## Claim C3: fault isolation
-/

/-- A registered component whose render always throws. -/
def brokenComp : Component := ⟨9, false, false⟩

/-- A registry holding a healthy component and the always-failing one. -/
def regWithBroken : Registry :=
  [("ProductCard", productCardComp), ("Broken", brokenComp)]

/-- A container mounting the always-failing component. -/
def cBroken : Container := ⟨3, some "Broken", none⟩

/-- A tracked mount point nested strictly inside a removed subtree. -/
def removedInner : DomNode := DomNode.mk 2 1 []

/-- A removed element node whose subtree contains the tracked mount point. -/
def removedTop : DomNode := DomNode.mk 1 1 [removedInner]

/-- An observer table tracking only the nested mount point. -/
def obsRoots : ObserverRoots := [(2, okRoot)]

/-- An observer table tracking a mount point that is removed directly. -/
def obsRootsDirect : ObserverRoots := [(5, okRoot)]

/-!
## Basic facts about the tracking table
-/

/-- Well-formedness of the engine state: the tracking map has at most one
entry per container (`Map` key uniqueness). -/
def WF (s : EngineState) : Prop := (s.activeRoots.map Prod.fst).Nodup

theorem findEntry_append_some {l l2 : List (Container × RootEntry)}
    {c : Container} {e : RootEntry} (h : findEntry l c = some e) :
    findEntry (l ++ l2) c = some e := by
  induction l with
  | nil => simp [findEntry] at h
  | cons p t ih =>
    obtain ⟨k, v⟩ := p
    by_cases hk : k = c
    · simpa [findEntry, hk] using h
    · simp only [findEntry, List.cons_append, if_neg hk] at h ⊢
      exact ih h

theorem findEntry_append_self {l : List (Container × RootEntry)}
    {c : Container} (h : findEntry l c = none) (v : RootEntry) :
    findEntry (l ++ [(c, v)]) c = some v := by
  induction l with
  | nil => simp [findEntry]
  | cons p t ih =>
    obtain ⟨k, w⟩ := p
    by_cases hk : k = c
    · simp [findEntry, hk] at h
    · simp only [findEntry, if_neg hk] at h
      simpa [findEntry, if_neg hk] using ih h

theorem findEntry_append_other {l : List (Container × RootEntry)}
    {c c' : Container} (v : RootEntry) (h : c' ≠ c) :
    findEntry (l ++ [(c, v)]) c' = findEntry l c' := by
  have hcc : ¬ c = c' := fun hc => h hc.symm
  induction l with
  | nil => simp [findEntry, hcc]
  | cons p t ih =>
    obtain ⟨k, w⟩ := p
    by_cases hk : k = c'
    · simp [findEntry, hk]
    · simpa [findEntry, hk] using ih

theorem findEntry_none_iff {l : List (Container × RootEntry)} {c : Container} :
    findEntry l c = none ↔ c ∉ l.map Prod.fst := by
  induction l with
  | nil => simp [findEntry]
  | cons p t ih =>
    obtain ⟨k, v⟩ := p
    by_cases hk : k = c
    · subst hk
      simp [findEntry]
    · have hck : ¬ c = k := fun hc => hk hc.symm
      simp [findEntry, hk, ih, hck]

theorem findEntry_removeEntry_self (l : List (Container × RootEntry))
    (c : Container) : findEntry (removeEntry l c) c = none := by
  induction l with
  | nil => simp [removeEntry, findEntry]
  | cons p t ih =>
    obtain ⟨k, v⟩ := p
    by_cases hk : k = c
    · simpa [removeEntry, hk] using ih
    · simpa [removeEntry, findEntry, hk] using ih

theorem removeEntry_sublist (l : List (Container × RootEntry)) (c : Container) :
    List.Sublist (removeEntry l c) l := by
  induction l with
  | nil => simp [removeEntry]
  | cons p t ih =>
    obtain ⟨k, v⟩ := p
    by_cases hk : k = c
    · simp only [removeEntry, if_pos hk]
      exact ih.cons _
    · simp only [removeEntry, if_neg hk]
      exact ih.cons₂ _

theorem removeEntry_of_not_mem {l : List (Container × RootEntry)}
    {c : Container} (h : c ∉ l.map Prod.fst) : removeEntry l c = l := by
  induction l with
  | nil => rfl
  | cons p t ih =>
    obtain ⟨k, v⟩ := p
    simp only [List.map_cons, List.mem_cons] at h
    push_neg at h
    have hk : ¬ k = c := fun he => h.1 he.symm
    simp [removeEntry, hk, ih h.2]

/-!
## Case analysis and stability of `mountWidget`
-/

/-- `mountWidget` either leaves the state unchanged (already tracked, or a
skip) or appends exactly one fresh entry for an untracked, resolvable
container. -/
theorem mount_cases (reg : Registry) (s : EngineState) (c : Container) :
    (mountWidget reg s c).1 = s ∨
    (∃ name comp, c.widgetComponent = some name ∧ name ≠ "" ∧
      findComponent reg name = some comp ∧ findEntry s.activeRoots c = none ∧
      (mountWidget reg s c).1 =
        ⟨s.activeRoots ++
           [(c, ⟨⟨s.nextRootId, renderTree comp (parseProps c.props).1,
                  comp.cleanupThrows⟩, name⟩)],
         s.nextRootId + 1⟩) := by
  rcases htr : findEntry s.activeRoots c with _ | e
  · rcases hw : c.widgetComponent with _ | name
    · left; simp [mountWidget, htr, hw]
    · by_cases hne : name = ""
      · left; simp [mountWidget, htr, hw, hne]
      · rcases hf : findComponent reg name with _ | comp
        · left; simp [mountWidget, htr, hw, hne, hf]
        · right
          refine ⟨name, comp, rfl, hne, hf, rfl, ?_⟩
          simp [mountWidget, htr, hw, hne, hf]
  · left; simp [mountWidget, htr]

/-- A mount attempt on an already-tracked container emits the
already-mounted warning and leaves the state (table and root counter)
unchanged: no new root is created and the existing root is not overwritten. -/
theorem mount_of_tracked {reg : Registry} {s : EngineState} {c : Container}
    {e : RootEntry} (h : findEntry s.activeRoots c = some e) :
    mountWidget reg s c = (s, [Diagnostic.alreadyMounted c.id]) := by
  simp [mountWidget, h]

/-- Being tracked is preserved by any further mount. -/
theorem tracked_mono {reg : Registry} {s : EngineState} {c c' : Container}
    {e : RootEntry} (h : findEntry s.activeRoots c = some e) :
    findEntry (mountWidget reg s c').1.activeRoots c = some e := by
  rcases mount_cases reg s c' with hc | ⟨name, comp, _, _, _, _, hc⟩
  · rw [hc]; exact h
  · rw [hc]; exact findEntry_append_some h

/-- `mountWidget` is stable exactly on tracked containers and containers
skipped for an attribute or registry reason. -/
theorem mount_stable_iff {reg : Registry} {s : EngineState} {c : Container} :
    (mountWidget reg s c).1 = s ↔
      ((findEntry s.activeRoots c).isSome ∨ c.widgetComponent = none ∨
        c.widgetComponent = some "" ∨
        ∃ n, c.widgetComponent = some n ∧ n ≠ "" ∧ findComponent reg n = none) := by
  constructor
  · intro h
    rcases htr : findEntry s.activeRoots c with _ | e
    · rcases hw : c.widgetComponent with _ | name
      · exact Or.inr (Or.inl rfl)
      · by_cases hne : name = ""
        · exact Or.inr (Or.inr (Or.inl (by rw [hne])))
        · rcases hf : findComponent reg name with _ | comp
          · exact Or.inr (Or.inr (Or.inr ⟨name, rfl, hne, hf⟩))
          · exfalso
            have hn : (mountWidget reg s c).1.nextRootId = s.nextRootId + 1 := by
              simp [mountWidget, htr, hw, hne, hf]
            rw [h] at hn
            omega
    · simp [htr]
  · intro h
    rcases h with h | h | h | ⟨n, hn, hne, hf⟩
    · rcases Option.isSome_iff_exists.1 h with ⟨e, he⟩
      rw [mount_of_tracked he]
    · rcases htr : findEntry s.activeRoots c with _ | e
      · simp [mountWidget, htr, h]
      · rw [mount_of_tracked htr]
    · rcases htr : findEntry s.activeRoots c with _ | e
      · simp [mountWidget, htr, h]
      · rw [mount_of_tracked htr]
    · rcases htr : findEntry s.activeRoots c with _ | e
      · simp [mountWidget, htr, hn, hne, hf]
      · rw [mount_of_tracked htr]

/-- Stability of a container is preserved by mounting any container. -/
theorem mount_stable_step {reg : Registry} {s : EngineState} {c c' : Container}
    (h : (mountWidget reg s c).1 = s) :
    (mountWidget reg (mountWidget reg s c').1 c).1 = (mountWidget reg s c').1 := by
  rcases mount_stable_iff.1 h with ht | hs
  · rcases Option.isSome_iff_exists.1 ht with ⟨e, he⟩
    have hmono : findEntry (mountWidget reg s c').1.activeRoots c = some e :=
      tracked_mono he
    exact mount_stable_iff.2 (Or.inl (by simp [hmono]))
  · exact mount_stable_iff.2 (Or.inr hs)

/-- After `mountWidget` has processed a container once, mounting it again
does not change the state. -/
theorem mount_self_stable (reg : Registry) (s : EngineState) (c : Container) :
    (mountWidget reg (mountWidget reg s c).1 c).1 = (mountWidget reg s c).1 := by
  rcases mount_cases reg s c with h | ⟨name, comp, hn, hne, hf, htr, h⟩
  · rw [h]; exact h
  · apply mount_stable_iff.2
    left
    rw [h]
    simp [findEntry_append_self htr]

/-- Stability of a container is preserved by a whole scan. -/
theorem mount_stable_scan {reg : Registry} {c : Container}
    {doc : List Container} {s : EngineState}
    (h : (mountWidget reg s c).1 = s) :
    (mountWidget reg (scanLoop reg s doc).1 c).1 = (scanLoop reg s doc).1 := by
  induction doc generalizing s with
  | nil => simpa [scanLoop] using h
  | cons d rest ih =>
    simp only [scanLoop]
    exact ih (mount_stable_step h)

/-- After a scan, every container of the scanned document is stable. -/
theorem scan_stable_all {reg : Registry} {doc : List Container}
    {s : EngineState} {c : Container} (hc : c ∈ doc) :
    (mountWidget reg (scanLoop reg s doc).1 c).1 = (scanLoop reg s doc).1 := by
  induction doc generalizing s with
  | nil => cases hc
  | cons d rest ih =>
    simp only [scanLoop]
    rcases List.mem_cons.1 hc with rfl | hmem
    · exact mount_stable_scan (mount_self_stable reg s c)
    · exact ih hmem

/-- Scanning a document of stable containers does not change the state. -/
theorem scan_of_stable {reg : Registry} {doc : List Container}
    {s : EngineState} (h : ∀ c ∈ doc, (mountWidget reg s c).1 = s) :
    (scanLoop reg s doc).1 = s := by
  induction doc with
  | nil => rfl
  | cons d rest ih =>
    simp only [scanLoop]
    rw [h d (by simp)]
    exact ih fun c hc => h c (by simp [hc])

/-!
## Preservation of table well-formedness
-/

theorem wf_mount (reg : Registry) (s : EngineState) (c : Container)
    (h : WF s) : WF (mountWidget reg s c).1 := by
  rcases mount_cases reg s c with hc | ⟨name, comp, _, _, _, htr, hc⟩
  · rw [hc]; exact h
  · rw [hc]
    unfold WF at h ⊢
    simp only [List.map_append, List.map_cons, List.map_nil]
    rw [List.nodup_append]
    refine ⟨h, List.nodup_singleton _, ?_⟩
    intro a ha hb
    rw [List.mem_singleton] at hb
    subst hb
    exact (findEntry_none_iff.1 htr) ha

theorem wf_unmount (s : EngineState) (c : Container) (h : WF s) :
    WF (unmountWidget s c).1 := by
  rcases htr : findEntry s.activeRoots c with _ | e
  · simpa [unmountWidget, htr] using h
  · by_cases hth : e.root.throwsOnUnmount
    · simpa [unmountWidget, htr, hth] using h
    · have hs : List.Sublist ((removeEntry s.activeRoots c).map Prod.fst)
          (s.activeRoots.map Prod.fst) :=
        (removeEntry_sublist _ _).map _
      have hN := List.Nodup.sublist hs h
      simp only [unmountWidget, htr, hth]
      simpa [WF] using hN

theorem wf_scan (reg : Registry) (doc : List Container) (s : EngineState)
    (h : WF s) : WF (scanLoop reg s doc).1 := by
  induction doc generalizing s with
  | nil => exact h
  | cons c rest ih =>
    simp only [scanLoop]
    exact ih _ (wf_mount reg s c h)

theorem wf_cleanupLoop (s : EngineState) (cs : List Container) (h : WF s) :
    WF (cleanupLoop s cs).1 := by
  induction cs generalizing s with
  | nil => exact h
  | cons c rest ih =>
    cases hb : (unmountWidget s c).2.2 with
    | true =>
      simp only [cleanupLoop, hb, if_true]
      exact wf_unmount s c h
    | false =>
      simp only [cleanupLoop, hb, Bool.false_eq_true, if_false]
      exact ih _ (wf_unmount s c h)

/-!
## A full run of `cleanupAllWidgets` when no teardown throws
-/

theorem cleanupLoop_run (n : Nat) (l : List (Container × RootEntry))
    (hN : (l.map Prod.fst).Nodup)
    (hok : ∀ p ∈ l, p.2.root.throwsOnUnmount = false) :
    cleanupLoop ⟨l, n⟩ (l.map Prod.fst) =
      (⟨[], n⟩,
       (l.map fun p => [Diagnostic.releaseAttempt p.2.root.rid,
                        Diagnostic.unmounted p.2.componentName]).flatten,
       false) := by
  induction l with
  | nil => rfl
  | cons p t ih =>
    obtain ⟨k, v⟩ := p
    simp only [List.map_cons, List.nodup_cons] at hN
    have hv : v.root.throwsOnUnmount = false := hok (k, v) (by simp)
    have hrem : removeEntry t k = t := removeEntry_of_not_mem hN.1
    have hu : unmountWidget ⟨(k, v) :: t, n⟩ k =
        (⟨t, n⟩, [Diagnostic.releaseAttempt v.root.rid,
                  Diagnostic.unmounted v.componentName], false) := by
      simp [unmountWidget, findEntry, removeEntry, hv, hrem]
    simp only [List.map_cons, cleanupLoop, hu]
    rw [ih hN.2 fun p hp => hok p (List.mem_cons_of_mem _ hp)]
    simp

/-!
## Claims C1, C4, C6, C7, C8, C9, C10
-/

/-- **C1 (counterexample).** The claim states that a container whose
`data-props` is not valid JSON is skipped with no root created and no
tracking entry added.  In the TS engine this is false: `parseProps`
catches the parse failure, logs the error, and returns `\x7b\x7d`, after
which `mountWidget` proceeds — a root is created and an entry is added. -/
theorem c1_counterexample :
    jsonParse "\x7bnot valid json" = none ∧
    (mountWidget demoRegistry EngineState.init cBadJson).1.activeRoots.length = 1 ∧
    (mountWidget demoRegistry EngineState.init cBadJson).2 =
      [Diagnostic.invalidPropsJson, Diagnostic.mounted "ProductCard"] :=
  ⟨rfl, rfl, rfl⟩

/-- **C1 (amended).** For every container whose `data-props` holds a string
that is not valid JSON, the scan/mount operation emits a diagnostic, falls
back to the empty props object, and still mounts the container (a root is
created and a tracking entry added); no exception escapes and the
remaining containers of the same scan are still processed. -/
theorem c1_malformed_json_mounts (reg : Registry) (s : EngineState)
    (c : Container) (rest : List Container) (name : String) (comp : Component)
    (str : String)
    (hU : findEntry s.activeRoots c = none)
    (hn : c.widgetComponent = some name) (hne : name ≠ "")
    (hr : findComponent reg name = some comp)
    (hp : c.props = some str) (hs : str ≠ "")
    (hj : jsonParse str = none) :
    mountWidget reg s c =
      (⟨s.activeRoots ++
          [(c, ⟨⟨s.nextRootId, renderTree comp (Json.obj []),
                 comp.cleanupThrows⟩, name⟩)],
        s.nextRootId + 1⟩,
       [Diagnostic.invalidPropsJson, Diagnostic.mounted name]) ∧
    (scanLoop reg s (c :: rest)).1 = (scanLoop reg (mountWidget reg s c).1 rest).1 := by
  have hpp : parseProps c.props = (Json.obj [], [Diagnostic.invalidPropsJson]) := by
    simp [parseProps, hp, hs, hj]
  exact ⟨by simp [mountWidget, hU, hn, hne, hr, hpp], rfl⟩

/-- Witness for C1 (amended) at the concrete malformed-JSON container. -/
theorem c1_malformed_json_mounts_witness :
    mountWidget demoRegistry EngineState.init cBadJson =
      (⟨[(cBadJson, ⟨⟨0, renderTree productCardComp (Json.obj []), false⟩,
                     "ProductCard"⟩)], 1⟩,
       [Diagnostic.invalidPropsJson, Diagnostic.mounted "ProductCard"]) :=
  (c1_malformed_json_mounts demoRegistry EngineState.init cBadJson []
    "ProductCard" productCardComp "\x7bnot valid json" rfl rfl
    (by decide) rfl rfl (by decide) rfl).1

/-- **C4 (counterexample).** The claim states that a second scan of the
unchanged document emits no duplicate-mount diagnostic; in the TS engine
`mountWidget` warns "Widget already mounted" for every tracked container
it revisits. -/
theorem c4_counterexample :
    (scanLoop demoRegistry (scanLoop demoRegistry EngineState.init [cGood]).1
      [cGood]).2 = [Diagnostic.alreadyMounted 0] := rfl

/-- **C4 (amended).** Running the scan a second time on the unchanged
document adds no entry to the tracking table and remounts no
already-tracked mount point (the engine state is unchanged), but for each
already-tracked container the mount attempt emits an already-mounted
warning. -/
theorem c4_scan_idempotent (reg : Registry) (doc : List Container)
    (s : EngineState) :
    (scanLoop reg (scanLoop reg s doc).1 doc).1 = (scanLoop reg s doc).1 ∧
    ∀ c e, findEntry s.activeRoots c = some e →
      mountWidget reg s c = (s, [Diagnostic.alreadyMounted c.id]) := by
  refine ⟨scan_of_stable fun c hc => scan_stable_all hc, ?_⟩
  intro c e he
  exact mount_of_tracked he

/-- Witness for C4 (amended) on the one-container document. -/
theorem c4_scan_idempotent_witness :
    (scanLoop demoRegistry (scanLoop demoRegistry sOne [cGood]).1 [cGood]).1
        = (scanLoop demoRegistry sOne [cGood]).1 ∧
    mountWidget demoRegistry sOne cGood = (sOne, [Diagnostic.alreadyMounted 0]) :=
  ⟨(c4_scan_idempotent demoRegistry [cGood] sOne).1,
   (c4_scan_idempotent demoRegistry [cGood] sOne).2 cGood goodEntry rfl⟩

/-- **C6.** A container naming a component that is not a registry key is
skipped with a not-registered diagnostic — no root, no tracking entry, the
state is unchanged — and the remaining containers of the scan are
processed exactly as they would be without it. -/
theorem c6_unregistered_skipped (reg : Registry) (s : EngineState)
    (c : Container) (rest : List Container) (name : String)
    (hU : findEntry s.activeRoots c = none)
    (hn : c.widgetComponent = some name) (hne : name ≠ "")
    (hr : findComponent reg name = none) :
    mountWidget reg s c = (s, [Diagnostic.componentNotRegistered name]) ∧
    (scanLoop reg s (c :: rest)).1 = (scanLoop reg s rest).1 ∧
    (scanLoop reg s (c :: rest)).2 =
      Diagnostic.componentNotRegistered name :: (scanLoop reg s rest).2 := by
  have hm : mountWidget reg s c = (s, [Diagnostic.componentNotRegistered name]) := by
    simp [mountWidget, hU, hn, hne, hr]
  refine ⟨hm, ?_, ?_⟩ <;> simp [scanLoop, hm]

/-- Witness for C6: scanning a document whose only mount point names the
unregistered component yields zero tracking entries and the one
diagnostic. -/
theorem c6_unregistered_skipped_witness :
    mountWidget demoRegistry EngineState.init cMissing =
      (EngineState.init, [Diagnostic.componentNotRegistered "Missing"]) ∧
    (scanLoop demoRegistry EngineState.init [cMissing]).1.activeRoots = [] ∧
    (scanLoop demoRegistry EngineState.init [cMissing]).2 =
      [Diagnostic.componentNotRegistered "Missing"] :=
  ⟨(c6_unregistered_skipped demoRegistry EngineState.init cMissing []
      "Missing" rfl rfl (by decide) rfl).1, rfl, rfl⟩

/-- **C7 (counterexample).** The claim states that for every tracked
container the unmount call destroys its root and removes its entry from
the table.  When the tracked root's teardown throws, `entry.root.unmount()`
raises before `activeRoots.delete` is reached: the exception escapes the
call and the entry remains in the table. -/
theorem c7_counterexample :
    findEntry sThrow.activeRoots cGood = some ⟨throwRoot, "ProductCard"⟩ ∧
    throwRoot.throwsOnUnmount = true ∧
    unmountWidget sThrow cGood = (sThrow, [Diagnostic.releaseAttempt 100], true) ∧
    findEntry (unmountWidget sThrow cGood).1.activeRoots cGood =
      some ⟨throwRoot, "ProductCard"⟩ :=
  ⟨rfl, rfl, rfl, rfl⟩

/-- **C7 (amended).** Unmounting an untracked container is a no-op that
raises no error and leaves the table unchanged; unmounting a tracked
container whose teardown does not throw destroys its root (running its
release) and removes its entry from the table; for a tracked container
whose teardown throws, the exception propagates to the caller and the
entry remains in the table. -/
theorem c7_unmount_contract (s : EngineState) (c : Container) :
    (findEntry s.activeRoots c = none → unmountWidget s c = (s, [], false)) ∧
    (∀ e, findEntry s.activeRoots c = some e → e.root.throwsOnUnmount = false →
      unmountWidget s c =
        (⟨removeEntry s.activeRoots c, s.nextRootId⟩,
         [Diagnostic.releaseAttempt e.root.rid,
          Diagnostic.unmounted e.componentName], false) ∧
      findEntry (unmountWidget s c).1.activeRoots c = none) ∧
    (∀ e, findEntry s.activeRoots c = some e → e.root.throwsOnUnmount = true →
      unmountWidget s c = (s, [Diagnostic.releaseAttempt e.root.rid], true)) := by
  refine ⟨?_, ?_, ?_⟩
  · intro h
    simp [unmountWidget, h]
  · intro e he hok
    constructor
    · simp [unmountWidget, he, hok]
    · simp [unmountWidget, he, hok, findEntry_removeEntry_self]
  · intro e he hth
    simp [unmountWidget, he, hth]

/-- Witness for C7 (amended): the no-op case on an untracked container,
the destroy-and-remove case on a tracked one, and the throwing case
leaving the entry in place. -/
theorem c7_unmount_contract_witness :
    unmountWidget sOne cOther = (sOne, [], false) ∧
    unmountWidget sOne cGood =
      (⟨[], 1⟩, [Diagnostic.releaseAttempt 0, Diagnostic.unmounted "ProductCard"],
       false) ∧
    unmountWidget sThrow cGood = (sThrow, [Diagnostic.releaseAttempt 100], true) :=
  ⟨(c7_unmount_contract sOne cOther).1 rfl,
   ((c7_unmount_contract sOne cGood).2.1 goodEntry rfl rfl).1,
   (c7_unmount_contract sThrow cGood).2.2 ⟨throwRoot, "ProductCard"⟩ rfl rfl⟩

/-- **C8.** A container whose `data-props` attribute is absent or the empty
string mounts with the empty configuration object and no error
diagnostic. -/
theorem c8_empty_props_default (reg : Registry) (s : EngineState)
    (c : Container) (name : String) (comp : Component)
    (hU : findEntry s.activeRoots c = none)
    (hn : c.widgetComponent = some name) (hne : name ≠ "")
    (hr : findComponent reg name = some comp)
    (hp : c.props = none ∨ c.props = some "") :
    mountWidget reg s c =
      (⟨s.activeRoots ++
          [(c, ⟨⟨s.nextRootId, renderTree comp (Json.obj []),
                 comp.cleanupThrows⟩, name⟩)],
        s.nextRootId + 1⟩,
       [Diagnostic.mounted name]) := by
  have hpp : parseProps c.props = (Json.obj [], []) := by
    rcases hp with hp | hp <;> simp [parseProps, hp]
  simp [mountWidget, hU, hn, hne, hr, hpp]

/-- Witness for C8 on the missing-attribute container and on an
empty-string one. -/
theorem c8_empty_props_default_witness :
    mountWidget demoRegistry EngineState.init cGood =
      (sOne, [Diagnostic.mounted "ProductCard"]) ∧
    mountWidget demoRegistry EngineState.init ⟨9, some "Calculator", some ""⟩ =
      (⟨[(⟨9, some "Calculator", some ""⟩,
          ⟨⟨0, renderTree calculatorComp (Json.obj []), false⟩, "Calculator"⟩)],
        1⟩,
       [Diagnostic.mounted "Calculator"]) :=
  ⟨c8_empty_props_default demoRegistry EngineState.init cGood "ProductCard"
     productCardComp rfl rfl (by decide) rfl (Or.inl rfl),
   c8_empty_props_default demoRegistry EngineState.init
     ⟨9, some "Calculator", some ""⟩ "Calculator" calculatorComp rfl rfl
     (by decide) rfl (Or.inr rfl)⟩

/-- **C9.** The tracking table holds at most one entry per container: a
mount attempt on a tracked container returns before creating a root
(state, including the root counter, unchanged — so the existing root is
never overwritten), and key uniqueness is preserved by mount, unmount,
scan, and the cleanup iteration. -/
theorem c9_at_most_one_entry (reg : Registry) (s : EngineState) (c : Container) :
    (∀ e, findEntry s.activeRoots c = some e →
      mountWidget reg s c = (s, [Diagnostic.alreadyMounted c.id])) ∧
    (WF s → WF (mountWidget reg s c).1) ∧
    (WF s → WF (unmountWidget s c).1) ∧
    (∀ doc, WF s → WF (scanLoop reg s doc).1) ∧
    (∀ cs, WF s → WF (cleanupLoop s cs).1) :=
  ⟨fun _ he => mount_of_tracked he, wf_mount reg s c, wf_unmount s c,
   fun doc h => wf_scan reg doc s h, fun cs h => wf_cleanupLoop s cs h⟩

/-- Witness for C9 at the one-entry state. -/
theorem c9_at_most_one_entry_witness :
    mountWidget demoRegistry sOne cGood = (sOne, [Diagnostic.alreadyMounted 0]) ∧
    WF (mountWidget demoRegistry sOne cGood).1 :=
  ⟨(c9_at_most_one_entry demoRegistry sOne cGood).1 goodEntry rfl,
   (c9_at_most_one_entry demoRegistry sOne cGood).2.1
     (by unfold WF; exact List.nodup_singleton _)⟩

/-- **C10.** The props parser accepts any syntactically valid JSON value —
scalars and arrays included, with no object-shape validation: the parsed
value is passed to the component as-is, a root is created and tracked, and
no diagnostic other than the mount log is emitted. -/
theorem c10_any_json_value (reg : Registry) (s : EngineState) (c : Container)
    (name : String) (comp : Component) (str : String) (v : Json)
    (hU : findEntry s.activeRoots c = none)
    (hn : c.widgetComponent = some name) (hne : name ≠ "")
    (hr : findComponent reg name = some comp)
    (hp : c.props = some str) (hs : str ≠ "")
    (hj : jsonParse str = some v) :
    mountWidget reg s c =
      (⟨s.activeRoots ++
          [(c, ⟨⟨s.nextRootId, renderTree comp v, comp.cleanupThrows⟩, name⟩)],
        s.nextRootId + 1⟩,
       [Diagnostic.mounted name]) := by
  have hpp : parseProps c.props = (v, []) := by
    simp [parseProps, hp, hs, hj]
  simp [mountWidget, hU, hn, hne, hr, hpp]

/-- Witness for C10 at the scalar `42`, plus the evaluation of the array
example. -/
theorem c10_any_json_value_witness :
    mountWidget demoRegistry EngineState.init cScalar =
      (⟨[(cScalar, ⟨⟨0, renderTree calculatorComp (Json.num 42 0), false⟩,
                    "Calculator"⟩)], 1⟩,
       [Diagnostic.mounted "Calculator"]) ∧
    jsonParse "[1,2]" = some (Json.arr [Json.num 1 0, Json.num 2 0]) :=
  ⟨c10_any_json_value demoRegistry EngineState.init cScalar "Calculator"
     calculatorComp "42" (Json.num 42 0) rfl rfl (by decide) rfl rfl
     (by decide) rfl, rfl⟩

/-- **C2 (counterexample).** The claim states that `cleanupAllWidgets` on a
table with K entries attempts all K releases and leaves the table empty
even when destroying an entry throws.  In the source the `forEach` body has
no try/catch: on a 2-entry table whose first root's teardown throws, the
exception propagates, only one release attempt is made, and both entries
remain in the table. -/
theorem c2_counterexample :
    sThrow.activeRoots.length = 2 ∧
    (cleanupAllWidgets sThrow).1.activeRoots.length = 2 ∧
    (cleanupAllWidgets sThrow).2.2 = true ∧
    (cleanupAllWidgets sThrow).2.1 = [Diagnostic.releaseAttempt 100] :=
  ⟨rfl, rfl, rfl, rfl⟩

/-- **C2 (amended).** When no individual teardown throws,
`cleanupAllWidgets` visits the table in insertion order, makes every one of
the K release attempts, and leaves the tracking table empty with no
exception; when a teardown throws, the exception propagates to the caller
and the table is not emptied (shown by the counterexample). -/
theorem c2_unmount_all_best_effort (s : EngineState) (hWF : WF s)
    (hok : ∀ p ∈ s.activeRoots, p.2.root.throwsOnUnmount = false) :
    (cleanupAllWidgets s).1.activeRoots = [] ∧
    (cleanupAllWidgets s).2.2 = false ∧
    (cleanupAllWidgets s).2.1 =
      (s.activeRoots.map fun p => [Diagnostic.releaseAttempt p.2.root.rid,
        Diagnostic.unmounted p.2.componentName]).flatten := by
  obtain ⟨l, n⟩ := s
  have h : cleanupAllWidgets ⟨l, n⟩ =
      (⟨[], n⟩,
       (l.map fun p => [Diagnostic.releaseAttempt p.2.root.rid,
                        Diagnostic.unmounted p.2.componentName]).flatten,
       false) :=
    cleanupLoop_run n l hWF hok
  rw [h]
  exact ⟨rfl, rfl, rfl⟩

/-- Witness for C2 (amended) at the concrete two-entry table. -/
theorem c2_unmount_all_best_effort_witness :
    (cleanupAllWidgets sTwo).1.activeRoots = [] ∧
    (cleanupAllWidgets sTwo).2.2 = false ∧
    (cleanupAllWidgets sTwo).2.1 =
      [Diagnostic.releaseAttempt 0, Diagnostic.unmounted "ProductCard",
       Diagnostic.releaseAttempt 101, Diagnostic.unmounted "Calculator"] := by
  have h := c2_unmount_all_best_effort sTwo (by unfold WF; decide) (by decide)
  exact ⟨h.1, h.2.1, h.2.2⟩

/-- **C3 (counterexample).** The claim states every successfully mounted
instance's render output is wrapped in the Fault Isolation Wrapper.  In the
TS engine the tree passed to `root.render` is only `StrictMode` around
`Suspense` around the component: it contains no error boundary, and with an
always-failing component the root render errors with no fallback — yet the
mount succeeds and is tracked. -/
theorem c3_counterexample :
    containsErrorBoundary (renderTree brokenComp (Json.obj [])) = false ∧
    renderEval (renderTree brokenComp (Json.obj [])) = RenderResult.errored ∧
    (mountWidget regWithBroken EngineState.init cBroken).1.activeRoots.length = 1 ∧
    (mountWidget regWithBroken EngineState.init cBroken).2 =
      [Diagnostic.mounted "Broken"] :=
  ⟨rfl, rfl, rfl, rfl⟩

/-- **C3 (amended).** In the setup-checklist engine every mounted
instance's render output is wrapped in the `ErrorBoundary`: a mounted
instance whose component always fails during render shows the error
fallback, while every already-tracked instance's entry (and hence its own
render output) is unaffected by the mount; in the TS demo engine the
render output carries no fault-isolation wrapper (counterexample). -/
theorem c3_error_boundary_isolation (reg : Registry) (s : EngineState)
    (c : Container) (name : String) (comp : Component) (props : Json)
    (hU : findEntry s.activeRoots c = none)
    (hn : c.widgetComponent = some name) (hne : name ≠ "")
    (hr : findComponent reg name = some comp)
    (hp : checklistParseProps c.props = some props) :
    checklistMountWidget reg false s c =
      (⟨s.activeRoots ++
          [(c, ⟨⟨s.nextRootId, checklistRenderTree name comp props,
                 comp.cleanupThrows⟩, name⟩)],
        s.nextRootId + 1⟩, []) ∧
    containsErrorBoundary (checklistRenderTree name comp props) = true ∧
    (comp.rendersOk = false →
      renderEval (checklistRenderTree name comp props) =
        RenderResult.ok (RElement.strictMode (errorFallback name))) ∧
    (comp.rendersOk = true →
      renderEval (checklistRenderTree name comp props) =
        RenderResult.ok (checklistRenderTree name comp props)) ∧
    (∀ c' e, findEntry s.activeRoots c' = some e →
      findEntry (checklistMountWidget reg false s c).1.activeRoots c' = some e) := by
  have hm : checklistMountWidget reg false s c =
      (⟨s.activeRoots ++
          [(c, ⟨⟨s.nextRootId, checklistRenderTree name comp props,
                 comp.cleanupThrows⟩, name⟩)],
        s.nextRootId + 1⟩, []) := by
    simp [checklistMountWidget, hU, hn, hne, hr, hp]
  refine ⟨hm, rfl, ?_, ?_, ?_⟩
  · intro hf
    simp [checklistRenderTree, renderEval, hf]
  · intro ht
    simp [checklistRenderTree, renderEval, ht]
  · intro c' e he
    rw [hm]
    exact findEntry_append_some he

/-- Witness for C3 (amended): the failing component mounted by the
checklist engine is wrapped in the boundary and renders the fallback. -/
theorem c3_error_boundary_isolation_witness :
    checklistMountWidget regWithBroken false EngineState.init cBroken =
      (⟨[(cBroken, ⟨⟨0, checklistRenderTree "Broken" brokenComp (Json.obj []),
                     false⟩, "Broken"⟩)], 1⟩, []) ∧
    containsErrorBoundary (checklistRenderTree "Broken" brokenComp (Json.obj []))
      = true ∧
    renderEval (checklistRenderTree "Broken" brokenComp (Json.obj [])) =
      RenderResult.ok (RElement.strictMode (errorFallback "Broken")) := by
  have h := c3_error_boundary_isolation regWithBroken EngineState.init cBroken
    "Broken" brokenComp (Json.obj []) rfl rfl (by decide) rfl rfl
  exact ⟨h.1, h.2.1, h.2.2.1 rfl⟩

/-!
## Claim C5: observer cleanup lemmas
-/

theorem findRootById_none_iff {l : ObserverRoots} {i : Nat} :
    findRootById l i = none ↔ ∀ p ∈ l, p.1 ≠ i := by
  induction l with
  | nil => simp [findRootById]
  | cons p t ih =>
    obtain ⟨k, v⟩ := p
    by_cases hk : k = i
    · subst hk
      simp [findRootById]
    · simp [findRootById, hk, ih]

theorem findRootById_mem {l : ObserverRoots} {i : Nat} {r : Root}
    (h : findRootById l i = some r) : (i, r) ∈ l := by
  induction l with
  | nil => simp [findRootById] at h
  | cons p t ih =>
    obtain ⟨k, v⟩ := p
    by_cases hk : k = i
    · subst hk
      simp [findRootById] at h
      subst h
      exact List.mem_cons_self _ _
    · simp only [findRootById, if_neg hk] at h
      exact List.mem_cons_of_mem _ (ih h)

theorem findRootById_of_mem_nodup {l : ObserverRoots}
    (hN : (l.map Prod.fst).Nodup) {i : Nat} {r : Root} (hm : (i, r) ∈ l) :
    findRootById l i = some r := by
  induction l with
  | nil => simp at hm
  | cons p t ih =>
    obtain ⟨k, v⟩ := p
    simp only [List.map_cons, List.nodup_cons] at hN
    rcases List.mem_cons.1 hm with he | hmem
    · injection he with h1 h2
      subst h1
      subst h2
      simp [findRootById]
    · by_cases hk : k = i
      · exfalso
        subst hk
        exact hN.1 (List.mem_map_of_mem Prod.fst hmem)
      · simp only [findRootById, if_neg hk]
        exact ih hN.2 hmem

theorem removeById_sublist (l : ObserverRoots) (i : Nat) :
    List.Sublist (removeById l i) l := by
  induction l with
  | nil => simp [removeById]
  | cons p t ih =>
    obtain ⟨k, v⟩ := p
    by_cases hk : k = i
    · simp only [removeById, if_pos hk]
      exact ih.cons _
    · simp only [removeById, if_neg hk]
      exact ih.cons₂ _

theorem mem_removeById {l : ObserverRoots} {p : Nat × Root} {i : Nat}
    (hm : p ∈ l) (hne : p.1 ≠ i) : p ∈ removeById l i := by
  induction l with
  | nil => simp at hm
  | cons q t ih =>
    obtain ⟨k, v⟩ := q
    rcases List.mem_cons.1 hm with he | hmem
    · subst he
      simp only [removeById, if_neg hne]
      exact List.mem_cons_self _ _
    · by_cases hk : k = i
      · simp only [removeById, if_pos hk]
        exact ih hmem
      · simp only [removeById, if_neg hk]
        exact List.mem_cons_of_mem _ (ih hmem)

theorem filter_cons_of_absent (l : ObserverRoots) (i : Nat) (ids : List Nat)
    (h : ∀ p ∈ l, p.1 ≠ i) :
    l.filter (fun p => p.1 ∉ i :: ids) = l.filter (fun p => p.1 ∉ ids) := by
  apply List.filter_congr
  intro p hp
  have hpi := h p hp
  simp [List.mem_cons, hpi]

theorem filter_cons_removeById (l : ObserverRoots) (i : Nat) (ids : List Nat) :
    l.filter (fun p => p.1 ∉ i :: ids) =
      (removeById l i).filter (fun p => p.1 ∉ ids) := by
  induction l with
  | nil => rfl
  | cons q t ih =>
    obtain ⟨k, v⟩ := q
    by_cases hk : k = i
    · subst hk
      have hrem : removeById ((k, v) :: t) k = removeById t k := by
        simp [removeById]
      rw [hrem, ← ih]
      simp [List.filter_cons, List.mem_cons]
    · simp only [removeById, if_neg hk]
      rw [List.filter_cons, List.filter_cons, ← ih]
      simp [List.mem_cons, hk]

theorem filter_append_ids (l : ObserverRoots) (ids1 ids2 : List Nat) :
    (l.filter fun p => p.1 ∉ ids1).filter (fun p => p.1 ∉ ids2) =
      l.filter (fun p => p.1 ∉ ids1 ++ ids2) := by
  rw [List.filter_filter]
  apply List.filter_congr
  intro p hp
  simp only [List.mem_append, decide_not]
  rw [Bool.and_comm]
  simp [not_or]

theorem processNodes_spec (ns : List DomNode) :
    ∀ roots : ObserverRoots, (roots.map Prod.fst).Nodup →
      (∀ p ∈ roots, p.2.throwsOnUnmount = false) →
      (processNodes roots ns).1 = roots.filter (fun p => p.1 ∉ elemIds ns) ∧
      (processNodes roots ns).2.2 = false ∧
      ∀ i r, (i, r) ∈ roots → i ∈ elemIds ns →
        Diagnostic.releaseAttempt r.rid ∈ (processNodes roots ns).2.1 := by
  induction ns with
  | nil =>
    intro roots hN hok
    refine ⟨by simp [processNodes, elemIds], rfl, ?_⟩
    intro i r _ hi
    simp [elemIds] at hi
  | cons n ns ih =>
    intro roots hN hok
    by_cases hn1 : n.nodeType = 1
    · rcases hf : findRootById roots n.id with _ | r
      · have habs : ∀ p ∈ roots, p.1 ≠ n.id := findRootById_none_iff.1 hf
        have hEq : processNodes roots (n :: ns) = processNodes roots ns := by
          simp [processNodes, hn1, hf]
        have hIds : elemIds (n :: ns) = n.id :: elemIds ns := by
          simp [elemIds, List.filter_cons, hn1]
        obtain ⟨h1, h2, h3⟩ := ih roots hN hok
        rw [hEq, hIds]
        refine ⟨?_, h2, ?_⟩
        · rw [filter_cons_of_absent roots n.id _ habs]
          exact h1
        · intro i r hm hi
          rcases List.mem_cons.1 hi with he | hi2
          · exact absurd he (habs (i, r) hm)
          · exact h3 i r hm hi2
      · have hmem : (n.id, r) ∈ roots := findRootById_mem hf
        have hth : r.throwsOnUnmount = false := hok (n.id, r) hmem
        have hsub := removeById_sublist roots n.id
        have hN1 : ((removeById roots n.id).map Prod.fst).Nodup :=
          List.Nodup.sublist (hsub.map _) hN
        have hok1 : ∀ p ∈ removeById roots n.id, p.2.throwsOnUnmount = false :=
          fun p hp => hok p (hsub.subset hp)
        obtain ⟨h1, h2, h3⟩ := ih (removeById roots n.id) hN1 hok1
        have hIds : elemIds (n :: ns) = n.id :: elemIds ns := by
          simp [elemIds, List.filter_cons, hn1]
        have hEq1 : (processNodes roots (n :: ns)).1 =
            (processNodes (removeById roots n.id) ns).1 := by
          simp [processNodes, hn1, hf, hth]
        have hEq2 : (processNodes roots (n :: ns)).2.1 =
            Diagnostic.releaseAttempt r.rid ::
              (processNodes (removeById roots n.id) ns).2.1 := by
          simp [processNodes, hn1, hf, hth]
        have hEq3 : (processNodes roots (n :: ns)).2.2 =
            (processNodes (removeById roots n.id) ns).2.2 := by
          simp [processNodes, hn1, hf, hth]
        rw [hIds]
        refine ⟨?_, by rw [hEq3]; exact h2, ?_⟩
        · rw [hEq1, h1, filter_cons_removeById]
        · intro i r2 hm hi
          rw [hEq2]
          by_cases hii : i = n.id
          · subst hii
            have h4 := findRootById_of_mem_nodup hN hm
            rw [hf] at h4
            injection h4 with hrr
            subst hrr
            exact List.mem_cons_self _ _
          · rcases List.mem_cons.1 hi with he | hi2
            · exact absurd he hii
            · exact List.mem_cons_of_mem _
                (h3 i r2 (mem_removeById hm hii) hi2)
    · have hEq : processNodes roots (n :: ns) = processNodes roots ns := by
        simp [processNodes, hn1]
      have hIds : elemIds (n :: ns) = elemIds ns := by
        simp [elemIds, List.filter_cons, hn1]
      rw [hEq, hIds]
      exact ih roots hN hok

theorem processRecords_spec (ms : List MutationRecord) :
    ∀ roots : ObserverRoots, (roots.map Prod.fst).Nodup →
      (∀ p ∈ roots, p.2.throwsOnUnmount = false) →
      (processRecords roots ms).1 =
        roots.filter (fun p => p.1 ∉ topRemovedIds ms) ∧
      (processRecords roots ms).2.2 = false ∧
      ∀ i r, (i, r) ∈ roots → i ∈ topRemovedIds ms →
        Diagnostic.releaseAttempt r.rid ∈ (processRecords roots ms).2.1 := by
  induction ms with
  | nil =>
    intro roots hN hok
    refine ⟨by simp [processRecords, topRemovedIds], rfl, ?_⟩
    intro i r _ hi
    simp [topRemovedIds] at hi
  | cons m ms ih =>
    intro roots hN hok
    obtain ⟨h1, h2, h3⟩ := processNodes_spec m.removedNodes roots hN hok
    have hN1 : (((processNodes roots m.removedNodes).1).map Prod.fst).Nodup := by
      rw [h1]
      exact List.Nodup.sublist ((List.filter_sublist _).map _) hN
    have hok1 : ∀ p ∈ (processNodes roots m.removedNodes).1,
        p.2.throwsOnUnmount = false := by
      intro p hp
      rw [h1] at hp
      exact hok p (List.mem_of_mem_filter hp)
    obtain ⟨g1, g2, g3⟩ := ih (processNodes roots m.removedNodes).1 hN1 hok1
    have hT : topRemovedIds (m :: ms) =
        elemIds m.removedNodes ++ topRemovedIds ms := by
      simp [topRemovedIds]
    have hEq1 : (processRecords roots (m :: ms)).1 =
        (processRecords (processNodes roots m.removedNodes).1 ms).1 := by
      simp [processRecords, h2]
    have hEq2 : (processRecords roots (m :: ms)).2.1 =
        (processNodes roots m.removedNodes).2.1 ++
          (processRecords (processNodes roots m.removedNodes).1 ms).2.1 := by
      simp [processRecords, h2]
    have hEq3 : (processRecords roots (m :: ms)).2.2 =
        (processRecords (processNodes roots m.removedNodes).1 ms).2.2 := by
      simp [processRecords, h2]
    rw [hT]
    refine ⟨?_, by rw [hEq3]; exact g2, ?_⟩
    · rw [hEq1, g1, h1, filter_append_ids]
    · intro i r hm hi
      rw [hEq2]
      by_cases hin : i ∈ elemIds m.removedNodes
      · exact List.mem_append_left _ (h3 i r hm hin)
      · rcases List.mem_append.1 hi with hi1 | hi2
        · exact absurd hi1 hin
        · have hm1 : (i, r) ∈ (processNodes roots m.removedNodes).1 := by
            rw [h1]
            exact List.mem_filter.2 ⟨hm, by simp [hin]⟩
          exact List.mem_append_right _ (g3 i r hm1 hi2)

/-- **C5 (counterexample).** The claim states that a tracked mount point
contained anywhere inside a removed subtree is unmounted and dropped from
the table.  The observer callback only tests each removed node itself
(`activeRoots.has(node)`), never its descendants: removing a parent whose
subtree contains the tracked mount point leaves the table unchanged and
runs no release. -/
theorem c5_counterexample :
    subtreeContains removedTop 2 = true ∧
    observerCallback obsRoots [⟨[removedTop]⟩] = (obsRoots, [], false) :=
  ⟨rfl, rfl⟩

/-- **C5 (amended).** For every removal mutation batch, if the tracking
table's keys are distinct and no tracked root's teardown throws, then
exactly the currently-tracked mount points that are themselves removed
nodes of some record (with element node type) are unmounted — their
release logic runs and their entries leave the table — and no exception
escapes the callback; a tracked mount point merely contained inside a
removed subtree keeps its entry and its release logic does not run. -/
theorem c5_observer_direct_removal_only (roots : ObserverRoots)
    (ms : List MutationRecord) (hN : (roots.map Prod.fst).Nodup)
    (hok : ∀ p ∈ roots, p.2.throwsOnUnmount = false) :
    (observerCallback roots ms).1 =
      roots.filter (fun p => p.1 ∉ topRemovedIds ms) ∧
    (observerCallback roots ms).2.2 = false ∧
    ∀ i r, (i, r) ∈ roots → i ∈ topRemovedIds ms →
      Diagnostic.releaseAttempt r.rid ∈ (observerCallback roots ms).2.1 :=
  processRecords_spec ms roots hN hok

/-- Witness for C5 (amended): a directly-removed tracked mount point is
released and dropped. -/
theorem c5_observer_direct_removal_only_witness :
    (observerCallback obsRootsDirect [⟨[DomNode.mk 5 1 []]⟩]).1 = [] ∧
    (observerCallback obsRootsDirect [⟨[DomNode.mk 5 1 []]⟩]).2.2 = false ∧
    Diagnostic.releaseAttempt 101 ∈
      (observerCallback obsRootsDirect [⟨[DomNode.mk 5 1 []]⟩]).2.1 := by
  have h := c5_observer_direct_removal_only obsRootsDirect
    [⟨[DomNode.mk 5 1 []]⟩] (by simp [obsRootsDirect]) (by simp [obsRootsDirect, okRoot])
  refine ⟨?_, h.2.1, ?_⟩
  · rw [h.1]
    rfl
  · exact h.2.2 5 okRoot (by simp [obsRootsDirect]) (by decide)
